import Mathlib

/-!
Verification of the `finance` library (Excel-style annuity formulas and an
installment calculator) against its natural-language specification.

The numeric code is embedded over `ℚ` (exact rational arithmetic standing in
for `float64`). The Go library calls `math.Log` and `math.Exp` only inside
`NPER` and `RATE`; those transcendentals are taken as explicit function
parameters (`rlog`, `rexp`), so every theorem below holds for an arbitrary
interpretation of them. Integer-typed Go values (`nper`, `per`, periods,
method tags) are embedded as `ℤ`.
-/

namespace Finance

/-- Accuracy is the accuracy in numeric approximations (default `1.0e-6`). -/
def Accuracy : ℚ := 1 / 1000000

/-- MaxIterations is the max iterations of the secant solver (default 100). -/
def MaxIterations : ℕ := 100

/-- Precision is the precision in installment (default 2 decimal places). -/
def Precision : ℕ := 2

/-- Installment method tag `EqualPayment` (Go `iota` value 0). -/
def EqualPayment : ℤ := 0

/-- Installment method tag `EqualPrincipal` (Go `iota` value 1). -/
def EqualPrincipal : ℤ := 1

/-- Present value interest factor: `PVIF = (1 + rate)^nper`.
Embeds `math.Pow(1+rate, float64(nper))` for integer `nper`. -/
def pvif (rate : ℚ) (nper : ℤ) : ℚ :=
  (1 + rate) ^ nper

/-- Future value interest factor of annuities:
`FVIFA = ((1 + rate)^nper - 1) / rate`, with the removable singularity at
`rate == 0` resolved to `nper`. -/
def fvifa (rate : ℚ) (nper : ℤ) : ℚ :=
  if rate = 0 then (nper : ℚ)
  else ((1 + rate) ^ nper - 1) / rate

/-- PMT calculates the payment for a loan based on constant payments and a
constant interest rate. -/
def PMT (rate : ℚ) (nper : ℤ) (pv fv due : ℚ) : ℚ :=
  -(pv * pvif rate nper + fv) / ((1 + rate * due) * fvifa rate nper)

/-- Accrued interest through period `per`:
`-(pv*(1+rate)^per*rate + pmt*((1+rate)^per - 1))`. -/
def calculateInterest (pv pmt rate : ℚ) (per : ℤ) : ℚ :=
  -(pv * (1 + rate) ^ per * rate + pmt * ((1 + rate) ^ per - 1))

/-- IPMT returns the interest payment for a given period for an investment
based on periodic, constant payments and a constant interest rate. -/
def IPMT (rate : ℚ) (per nper : ℤ) (pv fv due : ℚ) : ℚ :=
  if per < 1 ∨ per ≥ nper + 1 then 0
  else calculateInterest pv (PMT rate nper pv fv due) rate (per - 1)

/-- PPMT returns the payment on the principal for a given period for an
investment based on periodic, constant payments and a constant interest
rate. -/
def PPMT (rate : ℚ) (per nper : ℤ) (pv fv due : ℚ) : ℚ :=
  if per < 1 ∨ per ≥ nper + 1 then 0
  else
    let pmt := PMT rate nper pv fv due
    let ipmt := calculateInterest pv pmt rate (per - 1)
    pmt - ipmt

/-- PV returns the present value of an investment. -/
def PV (rate : ℚ) (nper : ℤ) (pmt fv due : ℚ) : ℚ :=
  (-pmt * (1 + rate * due) * fvifa rate nper - fv) / pvif rate nper

/-- FV returns the future value of an investment based on periodic, constant
payments and a constant interest rate. -/
def FV (rate : ℚ) (nper : ℤ) (pmt pv due : ℚ) : ℚ :=
  -pmt * (1 + rate * due) * fvifa rate nper - pv * pvif rate nper

/-- NPER returns the number of periods for an investment based on periodic,
constant payments and a constant interest rate. `rlog` interprets `math.Log`.
The `rate == 0 && pmt != 0` branch returns `-fv - pv/pmt`, exactly as the
source expression is parenthesized. -/
def NPER (rlog : ℚ → ℚ) (rate pmt pv fv due : ℚ) : ℚ :=
  if rate = 0 ∧ pmt ≠ 0 then -fv - pv / pmt
  else if rate ≤ 0 then 0
  else
    let initial := pmt * (1 + rate * due)
    let tmp := (initial - fv * rate) / (pv * rate + initial)
    if tmp ≤ 0 then 0
    else rlog tmp / rlog (1 + rate)

/-- State of the secant iteration inside `RATE`: the current estimate, the
two secant abscissae `x0, x1`, the two function values `y0, y1`, and the Go
local `f` that the inner closure mutates. -/
structure RateState where
  rate : ℚ
  x0 : ℚ
  x1 : ℚ
  y0 : ℚ
  y1 : ℚ
  f : ℚ
  deriving Repr, DecidableEq

/-- The inner closure `lamda` of `RATE`. It reads and writes the captured
local `f`, so it is embedded as `(old f, argument) ↦ (value, new f)`.
`rexp` and `rlog` interpret `math.Exp` and `math.Log`. -/
def lamda (rexp rlog : ℚ → ℚ) (nper : ℤ) (pmt pv fv due : ℚ)
    (f rate : ℚ) : ℚ × ℚ :=
  if |rate| < Accuracy then
    (pv * (1 + (nper : ℚ) * rate) + pmt * (1 + rate * due) * (nper : ℚ) + fv, f)
  else
    let fNew := rexp ((nper : ℚ) * rlog (1 + rate))
    (pv * fNew + pmt * (1 / rate + due) * (fNew - 1) + fv, fNew)

/-- One pass of the secant loop body in `RATE`. -/
def rateStep (rexp rlog : ℚ → ℚ) (nper : ℤ) (pmt pv fv due : ℚ)
    (s : RateState) : RateState :=
  let rate := (s.y1 * s.x0 - s.y0 * s.x1) / (s.y1 - s.y0)
  let p := lamda rexp rlog nper pmt pv fv due s.f rate
  { rate := rate, x0 := s.x1, x1 := rate, y0 := s.y1, y1 := p.1, f := p.2 }

/-- The state of `RATE` just before its loop: `rate = x1 = guess`, `x0 = 0`,
`f` starts at the zero value and is updated by the initial `lamda(rate)`
call, `y0 = pv + pmt*nper + fv`, and `y1` re-evaluates the closed form with
the current `f` and `rate = guess`. -/
def rateInit (rexp rlog : ℚ → ℚ) (nper : ℤ) (pmt pv fv due guess : ℚ) :
    RateState :=
  let p := lamda rexp rlog nper pmt pv fv due 0 guess
  { rate := guess
    x0 := 0
    x1 := guess
    y0 := pv + pmt * (nper : ℚ) + fv
    y1 := pv * p.2 + pmt * (1 / guess + due) * (p.2 - 1) + fv
    f := p.2 }

/-- The `for (math.Abs(y0-y1) > Accuracy) && (i < MaxIterations)` loop of
`RATE`: the iteration counter bound is embedded as descending fuel. -/
def rateLoop (rexp rlog : ℚ → ℚ) (nper : ℤ) (pmt pv fv due : ℚ)
    (s : RateState) : ℕ → RateState
  | 0 => s
  | fuel + 1 =>
    if Accuracy < |s.y0 - s.y1| then
      rateLoop rexp rlog nper pmt pv fv due
        (rateStep rexp rlog nper pmt pv fv due s) fuel
    else s

/-- RATE calculates interest rate per period of an annuity, by the secant
method seeded at `guess`. -/
def RATE (rexp rlog : ℚ → ℚ) (nper : ℤ) (pmt pv fv due guess : ℚ) : ℚ :=
  (rateLoop rexp rlog nper pmt pv fv due
    (rateInit rexp rlog nper pmt pv fv due guess) MaxIterations).rate

/-- Modelled from the spec: the external rounding helper `php.Round`
(package `github.com/hyperjiang/php`, not part of this repository) is
"treated as a pure function `round(x, precision)`" that rounds to the given
number of decimal places; ties round half away from zero, PHP's rounding
mode. First, rounding a rational to the nearest integer, half away from
zero. -/
def roundHalfAway (x : ℚ) : ℤ :=
  if 0 ≤ x then ⌊x + 1 / 2⌋ else -⌊-x + 1 / 2⌋

/-- Modelled from the spec: `php.Round(x, p)` — round `x` to `p` decimal
places (ties half away from zero). -/
def Round (x : ℚ) (p : ℕ) : ℚ :=
  (roundHalfAway (x * 10 ^ p) : ℚ) / 10 ^ p

/-- Loan is a loan, default method is EqualPayment. -/
structure Loan where
  Amount : ℚ
  Periods : ℤ
  AnnualRate : ℚ
  Method : ℤ
  deriving Repr, DecidableEq

/-- Installment is an installment. -/
structure Installment where
  Period : ℤ
  Payment : ℚ
  Principal : ℚ
  Interest : ℚ
  RemainingAmount : ℚ
  deriving Repr, DecidableEq

/-- CalculatePrincipal calculates principal in given period. -/
def Loan.CalculatePrincipal (loan : Loan) (period : ℤ) : ℚ :=
  if loan.Method = EqualPrincipal then
    loan.Amount / (loan.Periods : ℚ)
  else
    let monthlyRate := loan.AnnualRate / 12
    PPMT monthlyRate period loan.Periods (-loan.Amount) 0 0

/-- CalculateInterest calculates interest in given period. -/
def Loan.CalculateInterest (loan : Loan) (period : ℤ) : ℚ :=
  let monthlyRate := loan.AnnualRate / 12
  if loan.Method = EqualPrincipal then
    let remainingAmount :=
      loan.Amount * ((loan.Periods - period + 1 : ℤ) : ℚ) / (loan.Periods : ℚ)
    remainingAmount * monthlyRate
  else
    IPMT monthlyRate period loan.Periods (-loan.Amount) 0 0

/-- CalculatePayment calculates payment in given period. -/
def Loan.CalculatePayment (loan : Loan) (period : ℤ) : ℚ :=
  loan.CalculatePrincipal period + loan.CalculateInterest period

/-- CalculateTotalPayment calculates total payment. -/
def Loan.CalculateTotalPayment (loan : Loan) : ℚ :=
  let monthlyRate := loan.AnnualRate / 12
  if loan.Method = EqualPrincipal then
    Round (loan.Amount * (1 + monthlyRate * ((1 + loan.Periods : ℤ) : ℚ) / 2))
      Precision
  else
    Round (PMT monthlyRate loan.Periods (-loan.Amount) 0 0 * (loan.Periods : ℚ))
      Precision

/-- CalculateTotalInterest calculates total interest. -/
def Loan.CalculateTotalInterest (loan : Loan) : ℚ :=
  Round (loan.CalculateTotalPayment - loan.Amount) Precision

/-- The `Installment` value assembled by the body of the
`for p := 1; p < loan.Periods; p++` loop in `CalculateInstallments`, for
loop index `p`. -/
def Loan.installmentAt (loan : Loan) (p : ℤ) : Installment :=
  { Period := p
    Payment := Round (loan.CalculatePayment p) Precision
    Principal := Round (loan.CalculatePrincipal p) Precision
    Interest := Round (loan.CalculateInterest p) Precision
    RemainingAmount :=
      Round (loan.Amount - Round (loan.CalculatePrincipal p) Precision)
        Precision }

/-- The indices `1, 2, ..., n-1` visited by the `for p := 1; p < n; p++`
loop. -/
def periodIndices (n : ℤ) : List ℤ :=
  (List.range (n - 1).toNat).map (fun k => (k : ℤ) + 1)

/-- CalculateInstallments calculates installments. Faithful to the source:
the loop body builds `loan.installmentAt p` for each period, but the result
slice `installments` is never appended to, so the returned list is the
accumulator unchanged — the empty list. -/
def Loan.CalculateInstallments (loan : Loan) : List Installment :=
  (periodIndices loan.Periods).foldl
    (fun installments p => (fun _ => installments) (loan.installmentAt p))
    []

/-! ### Helper lemmas -/

lemma abs_roundHalfAway_sub (x : ℚ) : |(roundHalfAway x : ℚ) - x| ≤ 1 / 2 := by
  unfold roundHalfAway
  rcases le_or_lt 0 x with h | h
  · rw [if_pos h, abs_le]
    have h1 := Int.floor_le (x + 1 / 2)
    have h2 := Int.lt_floor_add_one (x + 1 / 2)
    constructor <;> push_cast at h1 h2 ⊢ <;> linarith
  · rw [if_neg (not_le.mpr h), abs_le]
    have h1 := Int.floor_le (-x + 1 / 2)
    have h2 := Int.lt_floor_add_one (-x + 1 / 2)
    constructor <;> push_cast at h1 h2 ⊢ <;> linarith

lemma Round_add_err (a b : ℚ) (p : ℕ) :
    |Round (a + b) p - (Round a p + Round b p)| ≤ 1 / 10 ^ p := by
  have h10 : (0 : ℚ) < 10 ^ p := by positivity
  have h1 := abs_roundHalfAway_sub ((a + b) * 10 ^ p)
  have h2 := abs_roundHalfAway_sub (a * 10 ^ p)
  have h3 := abs_roundHalfAway_sub (b * 10 ^ p)
  set d : ℤ := roundHalfAway ((a + b) * 10 ^ p) - roundHalfAway (a * 10 ^ p) -
    roundHalfAway (b * 10 ^ p) with hd
  have heq : Round (a + b) p - (Round a p + Round b p) = (d : ℚ) / 10 ^ p := by
    unfold Round
    rw [hd]
    push_cast
    field_simp
    ring
  have habs : |(d : ℚ)| ≤ 3 / 2 := by
    rw [abs_le] at h1 h2 h3 ⊢
    rw [hd]
    push_cast
    constructor <;> linarith
  have hdle : |d| ≤ 1 := by
    by_contra hc
    push_neg at hc
    have h2le : (2 : ℚ) ≤ |(d : ℚ)| := by
      rw [← Int.cast_abs]
      exact_mod_cast (by omega : (2 : ℤ) ≤ |d|)
    linarith
  have hd1 : |(d : ℚ)| ≤ 1 := by
    rw [← Int.cast_abs]
    exact_mod_cast hdle
  rw [heq, abs_div, abs_of_pos h10]
  gcongr

lemma CalculateInstallments_eq_nil (loan : Loan) :
    loan.CalculateInstallments = [] := by
  unfold Loan.CalculateInstallments
  have key : ∀ (l : List ℤ) (acc : List Installment),
      List.foldl (fun installments p => (fun _ => installments)
        (loan.installmentAt p)) acc l = acc := by
    intro l
    induction l with
    | nil => intro acc; rfl
    | cons hd tl ih => intro acc; rw [List.foldl_cons]; exact ih acc
  exact key _ []

/-! ### Claims -/

/-- C3: for every rate, pv, fv, timing and every period index `per` with
`per < 1` or `per > nper`, both `IPMT` and `PPMT` return exactly 0. -/
theorem IPMT_PPMT_out_of_range (rate : ℚ) (per nper : ℤ) (pv fv due : ℚ)
    (h : per < 1 ∨ per > nper) :
    IPMT rate per nper pv fv due = 0 ∧ PPMT rate per nper pv fv due = 0 := by
  have h' : per < 1 ∨ per ≥ nper + 1 := by omega
  constructor
  · unfold IPMT; rw [if_pos h']
  · unfold PPMT; rw [if_pos h']

/-- Witness for C3 at `per = 0`, `nper = 5`. -/
theorem IPMT_PPMT_out_of_range_witness :
    ((0 : ℤ) < 1 ∨ (0 : ℤ) > 5) ∧
      (IPMT 1 0 5 2 3 0 = 0 ∧ PPMT 1 0 5 2 3 0 = 0) :=
  ⟨Or.inl (by norm_num),
    IPMT_PPMT_out_of_range 1 0 5 2 3 0 (Or.inl (by norm_num))⟩

/-- C4: for every `nper ≥ 1`, pv, fv and timing,
`PMT 0 nper pv fv due = -(fv + pv) / nper`: `fvifa 0 nper = nper` resolves
the removable singularity and `pvif 0 nper = 1`. -/
theorem PMT_rate_zero (nper : ℤ) (pv fv due : ℚ) (h : 1 ≤ nper) :
    PMT 0 nper pv fv due = -(fv + pv) / (nper : ℚ) := by
  unfold PMT pvif fvifa
  split_ifs with h0
  · simp only [add_zero, one_zpow, zero_mul, mul_one, one_mul]
    ring
  · exact absurd rfl h0

/-- Witness for C4 at `nper = 12`, `pv = 5`, `fv = 7`, `due = 0`. -/
theorem PMT_rate_zero_witness :
    (1 : ℤ) ≤ 12 ∧ PMT 0 12 5 7 0 = -(7 + 5) / ((12 : ℤ) : ℚ) :=
  ⟨by norm_num, PMT_rate_zero 12 5 7 0 (by norm_num)⟩

/-- C10: for every rate, pv, fv, timing and `nper ≥ 1`, the first period's
interest `IPMT rate 1 nper pv fv due` equals exactly `-pv * rate`,
independent of fv, nper and timing: `calculateInterest` at `per - 1 = 0`
makes `(1+rate)^0 = 1` cancel the pmt term. -/
theorem IPMT_first_period (rate : ℚ) (nper : ℤ) (pv fv due : ℚ)
    (h : 1 ≤ nper) :
    IPMT rate 1 nper pv fv due = -(pv * rate) := by
  unfold IPMT
  rw [if_neg (by omega)]
  unfold calculateInterest
  norm_num

/-- Witness for C10 at `rate = 1/10`, `nper = 12`, `pv = 5`, `fv = 7`,
`due = 1`. -/
theorem IPMT_first_period_witness :
    (1 : ℤ) ≤ 12 ∧ IPMT (1 / 10) 1 12 5 7 1 = -(5 * (1 / 10)) :=
  ⟨by norm_num, IPMT_first_period (1 / 10) 12 5 7 1 (by norm_num)⟩

/-- C1: counterexample/evaluation. In the `rate == 0 && pmt != 0` branch the
source returns `-fv - pv/pmt` (the negation binds only to `fv`), not the
documented `-fv/pmt - pv/pmt`: at `rate = 0, pmt = 2, pv = 0, fv = 4` the
code yields `-4`, while `-fv/pmt - pv/pmt = -2`. -/
theorem NPER_zero_rate_missing_paren :
    NPER (fun x => x) 0 2 0 4 0 = -4 ∧
      NPER (fun x => x) 0 2 0 4 0 ≠ -4 / 2 - 0 / 2 := by
  constructor <;> norm_num [NPER]

/-- C5: `NPER` returns 0 in every degenerate case, for any interpretation of
the logarithm: when `rate < 0`; when `rate = 0` and `pmt = 0`; and when
`rate > 0` but the log argument
`(pmt*(1+rate*due) - fv*rate) / (pv*rate + pmt*(1+rate*due))` is `≤ 0`. -/
theorem NPER_degenerate (rlog : ℚ → ℚ) (rate pmt pv fv due : ℚ)
    (h : rate < 0 ∨ (rate = 0 ∧ pmt = 0) ∨
      (0 < rate ∧
        (pmt * (1 + rate * due) - fv * rate) /
          (pv * rate + pmt * (1 + rate * due)) ≤ 0)) :
    NPER rlog rate pmt pv fv due = 0 := by
  unfold NPER
  rcases h with hneg | ⟨h0, hp⟩ | ⟨hpos, hratio⟩
  · rw [if_neg (by rintro ⟨h0, _⟩; linarith), if_pos hneg.le]
  · rw [if_neg (by rintro ⟨_, hne⟩; exact hne hp), if_pos h0.le]
  · rw [if_neg (by rintro ⟨h0, _⟩; linarith), if_neg (not_le.mpr hpos)]
    simp only
    rw [if_pos hratio]

/-- Witness for C5 at `rate = 1, pmt = 1, pv = 1, fv = 2, due = 0`, where
the log argument equals `-1/2`. -/
theorem NPER_degenerate_witness :
    (0 < (1 : ℚ) ∧
      ((1 : ℚ) * (1 + 1 * 0) - 2 * 1) / (1 * 1 + 1 * (1 + 1 * 0)) ≤ 0) ∧
      NPER (fun x => x) 1 1 1 2 0 = 0 :=
  ⟨⟨by norm_num, by norm_num⟩,
    NPER_degenerate (fun x => x) 1 1 1 2 0
      (Or.inr (Or.inr ⟨by norm_num, by norm_num⟩))⟩

/-- C6: round-trip — for every valid `rate, nper, pv, fv, timing`
(`nper ≥ 1`, `rate > -1`, `fvifa rate nper ≠ 0`, timing 0 or 1),
`PV rate nper (PMT rate nper pv fv due) fv due = pv` exactly over the
rationals. -/
theorem PV_PMT_roundtrip (rate : ℚ) (nper : ℤ) (pv fv due : ℚ)
    (h1 : 1 ≤ nper) (h2 : -1 < rate) (hf : fvifa rate nper ≠ 0)
    (hd : due = 0 ∨ due = 1) :
    PV rate nper (PMT rate nper pv fv due) fv due = pv := by
  have hb : (0 : ℚ) < 1 + rate := by linarith
  have hP : pvif rate nper ≠ 0 := by
    unfold pvif
    exact zpow_ne_zero _ (ne_of_gt hb)
  have hdd : (1 + rate * due) ≠ 0 := by
    rcases hd with h | h <;> rw [h]
    · norm_num
    · rw [mul_one]
      exact ne_of_gt hb
  unfold PV PMT
  field_simp
  ring

/-- Witness for C6 at `rate = 1, nper = 1, pv = 3, fv = 5, due = 0`. -/
theorem PV_PMT_roundtrip_witness :
    ((1 : ℤ) ≤ 1 ∧ (-1 : ℚ) < 1 ∧ fvifa 1 1 ≠ 0 ∧ ((0 : ℚ) = 0 ∨ (0 : ℚ) = 1)) ∧
      PV 1 1 (PMT 1 1 3 5 0) 5 0 = 3 :=
  ⟨⟨by norm_num, by norm_num, by norm_num [fvifa], Or.inl rfl⟩,
    PV_PMT_roundtrip 1 1 3 5 0 (by norm_num) (by norm_num)
      (by norm_num [fvifa]) (Or.inl rfl)⟩

/-- C7: for every loan (either method) and every period's installment row as
assembled by the loop body of `CalculateInstallments`, the `Payment` field
equals the sum of the `Principal` and `Interest` fields to within `±0.01`
(one unit of the 2-decimal rounding precision). -/
theorem installment_payment_split (loan : Loan) (p : ℤ) :
    |(loan.installmentAt p).Payment -
      ((loan.installmentAt p).Principal + (loan.installmentAt p).Interest)| ≤
      1 / 100 := by
  have h := Round_add_err (loan.CalculatePrincipal p)
    (loan.CalculateInterest p) Precision
  simp only [Loan.installmentAt, Loan.CalculatePayment] at h ⊢
  calc |Round (loan.CalculatePrincipal p + loan.CalculateInterest p) Precision -
        (Round (loan.CalculatePrincipal p) Precision +
          Round (loan.CalculateInterest p) Precision)| ≤ 1 / 10 ^ Precision := h
    _ = 1 / 100 := by norm_num [Precision]

/-- C8: for every loan and period, the `RemainingAmount` field of the row
assembled by the loop body equals
`Round (Amount - Round (CalculatePrincipal p)) — the original amount minus
only the current period's rounded principal; on the equal-principal demo
loan (amount 1200, 12 periods) the period-2 value is 1100, not the running
cumulative balance 1000 = 1200 - (100 + 100). -/
theorem installment_remaining_per_row :
    (∀ (loan : Loan) (p : ℤ),
      (loan.installmentAt p).RemainingAmount =
        Round (loan.Amount - Round (loan.CalculatePrincipal p) Precision)
          Precision) ∧
      (Loan.installmentAt ⟨1200, 12, 12 / 100, EqualPrincipal⟩ 2).RemainingAmount
          = 1100 ∧
      (1100 : ℚ) ≠ 1200 -
        (Round (Loan.CalculatePrincipal ⟨1200, 12, 12 / 100, EqualPrincipal⟩ 1)
            Precision +
          Round (Loan.CalculatePrincipal ⟨1200, 12, 12 / 100, EqualPrincipal⟩ 2)
            Precision) := by
  refine ⟨fun loan p => rfl, ?_, ?_⟩
  · norm_num [Loan.installmentAt, Loan.CalculatePrincipal, Round, roundHalfAway,
      Precision, EqualPrincipal]
  · norm_num [Loan.CalculatePrincipal, Round, roundHalfAway, Precision,
      EqualPrincipal]

/-- C2: counterexample/evaluation. `CalculateInstallments` never appends the
rows it builds, so for the loan (amount 1000000, 12 periods, 7% annual rate,
equal-payment method) it returns the empty list rather than the 11 rows for
periods 1 through 11. -/
theorem CalculateInstallments_returns_empty :
    Loan.CalculateInstallments
        ⟨1000000, 12, 7 / 100, EqualPayment⟩ = [] ∧
      (Loan.CalculateInstallments
        ⟨1000000, 12, 7 / 100, EqualPayment⟩).length ≠ 11 := by
  constructor
  · exact CalculateInstallments_eq_nil _
  · rw [CalculateInstallments_eq_nil]
    norm_num

lemma rateLoop_iterate (rexp rlog : ℚ → ℚ) (nper : ℤ) (pmt pv fv due : ℚ) :
    ∀ (fuel : ℕ) (s : RateState),
      ∃ k ≤ fuel,
        rateLoop rexp rlog nper pmt pv fv due s fuel =
          (rateStep rexp rlog nper pmt pv fv due)^[k] s ∧
        (k < fuel →
          |((rateStep rexp rlog nper pmt pv fv due)^[k] s).y0 -
            ((rateStep rexp rlog nper pmt pv fv due)^[k] s).y1| ≤ Accuracy) ∧
        ∀ j < k,
          Accuracy < |((rateStep rexp rlog nper pmt pv fv due)^[j] s).y0 -
            ((rateStep rexp rlog nper pmt pv fv due)^[j] s).y1| := by
  intro fuel
  induction fuel with
  | zero =>
    intro s
    refine ⟨0, le_refl 0, rfl, fun hlt => absurd hlt (lt_irrefl 0), ?_⟩
    intro j hj
    exact absurd hj (Nat.not_lt_zero j)
  | succ fuel ih =>
    intro s
    by_cases hg : Accuracy < |s.y0 - s.y1|
    · obtain ⟨k, hk, heq, hstop, hall⟩ :=
        ih (rateStep rexp rlog nper pmt pv fv due s)
      refine ⟨k + 1, by omega, ?_, ?_, ?_⟩
      · rw [Function.iterate_succ_apply]
        unfold rateLoop
        rw [if_pos hg]
        exact heq
      · intro hlt
        rw [Function.iterate_succ_apply]
        exact hstop (by omega)
      · intro j hj
        cases j with
        | zero => simpa using hg
        | succ j =>
          rw [Function.iterate_succ_apply]
          exact hall j (by omega)
    · refine ⟨0, by omega, ?_, ?_, ?_⟩
      · unfold rateLoop
        rw [if_neg hg]
        simp
      · intro _
        simpa using not_lt.mp hg
      · intro j hj
        exact absurd hj (Nat.not_lt_zero j)

/-- C9: `RATE` always terminates — its result is the rate component of at
most `MaxIterations` applications of the secant step `rateStep` to the
initial state `rateInit`; it stops at the first step where the successive
function values `y0, y1` come within `Accuracy` of each other (every earlier
step they differed by more than `Accuracy`), or else after exactly
`MaxIterations` iterations, and returns the last rate estimate. Holds for
every interpretation `rexp`, `rlog` of `math.Exp`/`math.Log`. -/
theorem RATE_terminates (rexp rlog : ℚ → ℚ) (nper : ℤ)
    (pmt pv fv due guess : ℚ) :
    ∃ k ≤ MaxIterations,
      RATE rexp rlog nper pmt pv fv due guess =
        ((rateStep rexp rlog nper pmt pv fv due)^[k]
          (rateInit rexp rlog nper pmt pv fv due guess)).rate ∧
      (k < MaxIterations →
        |((rateStep rexp rlog nper pmt pv fv due)^[k]
            (rateInit rexp rlog nper pmt pv fv due guess)).y0 -
          ((rateStep rexp rlog nper pmt pv fv due)^[k]
            (rateInit rexp rlog nper pmt pv fv due guess)).y1| ≤ Accuracy) ∧
      ∀ j < k,
        Accuracy < |((rateStep rexp rlog nper pmt pv fv due)^[j]
            (rateInit rexp rlog nper pmt pv fv due guess)).y0 -
          ((rateStep rexp rlog nper pmt pv fv due)^[j]
            (rateInit rexp rlog nper pmt pv fv due guess)).y1| := by
  obtain ⟨k, hk, heq, hstop, hall⟩ :=
    rateLoop_iterate rexp rlog nper pmt pv fv due MaxIterations
      (rateInit rexp rlog nper pmt pv fv due guess)
  refine ⟨k, hk, ?_, hstop, hall⟩
  unfold RATE
  rw [heq]

end Finance
